import Mathlib

set_option maxHeartbeats 2000000
set_option maxRecDepth 4000

/-!
Verification of the Gazette Document Structuring Engine
(`src/dz_scrap/parsing/patterns.py`, `src/dz_scrap/parsing/parser.py`,
`src/dz_scrap/classification/classifier.py`, `src/dz_scrap/rag/chunker.py`).

Strings are modelled as `List Char`.  The Python regular expressions of
`patterns.py` are embedded as specialised backtracking matchers written in
continuation-passing style: non-greedy quantifiers try shorter repetitions
first, greedy ones longer repetitions first, alternatives are tried in
pattern order, exactly as Python's `re` engine does.  `re.IGNORECASE`
comparison and `str.lower` are modelled by `pyLower`, covering the ASCII
letters and the accented letters that occur in the patterns and inputs.
-/

namespace DzScrap

/-- Python `str.lower` / `re.IGNORECASE` folding, restricted to ASCII and the
accented letters used by the gazette patterns and inputs. -/
def pyLower (c : Char) : Char :=
  if 'A' ≤ c ∧ c ≤ 'Z' then Char.ofNat (c.toNat + 32)
  else if c = 'É' then 'é'
  else if c = 'È' then 'è'
  else if c = 'Ê' then 'ê'
  else if c = 'Ë' then 'ë'
  else if c = 'À' then 'à'
  else if c = 'Â' then 'â'
  else if c = 'Ç' then 'ç'
  else if c = 'Î' then 'î'
  else if c = 'Ï' then 'ï'
  else if c = 'Ô' then 'ô'
  else if c = 'Û' then 'û'
  else if c = 'Ù' then 'ù'
  else if c = 'Ü' then 'ü'
  else c

/-- Python `\s` / `str.strip` whitespace (the characters relevant to the
gazette text repertoire). -/
def isPyWs (c : Char) : Bool :=
  c == ' ' || c == '\t' || c == '\n' || c == '\r' || c == '\x0b' || c == '\x0c' ||
  c == '\x1c' || c == '\x1d' || c == '\x1e' || c == '\x1f' || c == '\x85' || c == '\xa0'

def isAsciiDigit (c : Char) : Bool := '0' ≤ c && c ≤ '9'

def isAsciiAlpha (c : Char) : Bool := ('a' ≤ c && c ≤ 'z') || ('A' ≤ c && c ≤ 'Z')

/-- Accented letters counted as word characters by Python `\w` that occur in
the gazette repertoire. -/
def wordAccents : List Char :=
  ['é', 'è', 'ê', 'ë', 'à', 'â', 'ç', 'î', 'ï', 'ô', 'û', 'ù', 'ü',
   'É', 'È', 'Ê', 'Ë', 'À', 'Â', 'Ç', 'Î', 'Ï', 'Ô', 'Û', 'Ù', 'Ü', 'œ', 'Œ']

/-- Python `\w` on the gazette character repertoire. -/
def isWordChar (c : Char) : Bool :=
  isAsciiAlpha c || isAsciiDigit c || c == '_' || wordAccents.contains c

def anyC : Char → Bool := fun _ => true

def notNl : Char → Bool := fun c => c != '\n'

/-- Does `pat` occur as a prefix of `s` (case-sensitive)? -/
def startsWithL : List Char → List Char → Bool
  | [], _ => true
  | _ :: _, [] => false
  | p :: ps, c :: cs => p == c && startsWithL ps cs

/-- Consume the literal `pat` from the front of `s` (case-sensitive). -/
def stripP : List Char → List Char → Option (List Char)
  | [], s => some s
  | _ :: _, [] => none
  | p :: ps, c :: cs => if p == c then stripP ps cs else none

/-- Consume the literal `pat` from the front of `s`, comparing with
`re.IGNORECASE` folding. -/
def stripPIC : List Char → List Char → Option (List Char)
  | [], s => some s
  | _ :: _, [] => none
  | p :: ps, c :: cs => if pyLower p == pyLower c then stripPIC ps cs else none

/-- Python substring containment `pat in s` (case-sensitive). -/
def containsSub (pat : List Char) : List Char → Bool
  | [] => startsWithL pat []
  | c :: cs => startsWithL pat (c :: cs) || containsSub pat cs

/-- The slice `t[a:b]` of Python. -/
def slice (t : List Char) (a b : Nat) : List Char := (t.drop a).take (b - a)

/-! ### Backtracking combinators

A matcher continuation receives the remaining input and the number of
characters consumed since the start of the match attempt. -/

abbrev MatchCont (R : Type) : Type := List Char → Nat → Option R

section Combinators

variable {R : Type}

/-- Non-greedy `C*?`: try zero repetitions first, then grow. -/
def ngStarK (C : Char → Bool) (k : MatchCont R) : List Char → Nat → Option R
  | r, n =>
    match k r n with
    | some x => some x
    | none =>
      match r with
      | [] => none
      | c :: cs => if C c then ngStarK C k cs (n + 1) else none

/-- Greedy `C*`: try the longest run first, backtracking to shorter runs. -/
def gStarK (C : Char → Bool) (k : MatchCont R) : List Char → Nat → Option R
  | [], n => k [] n
  | c :: cs, n =>
    if C c then
      match gStarK C k cs (n + 1) with
      | some x => some x
      | none => k (c :: cs) n
    else k (c :: cs) n

/-- Non-greedy `C+?`. -/
def ngPlusK (C : Char → Bool) (k : MatchCont R) : MatchCont R :=
  fun r n =>
    match r with
    | [] => none
    | c :: cs => if C c then ngStarK C k cs (n + 1) else none

/-- Greedy `C+`. -/
def gPlusK (C : Char → Bool) (k : MatchCont R) : MatchCont R :=
  fun r n =>
    match r with
    | [] => none
    | c :: cs => if C c then gStarK C k cs (n + 1) else none

/-- Case-sensitive literal. -/
def litK (pat : List Char) (k : MatchCont R) : MatchCont R :=
  fun r n =>
    match stripP pat r with
    | some r2 => k r2 (n + pat.length)
    | none => none

/-- Case-insensitive literal. -/
def litICK (pat : List Char) (k : MatchCont R) : MatchCont R :=
  fun r n =>
    match stripPIC pat r with
    | some r2 => k r2 (n + pat.length)
    | none => none

/-- A single character satisfying `C`. -/
def charK (C : Char → Bool) (k : MatchCont R) : MatchCont R :=
  fun r n =>
    match r with
    | c :: cs => if C c then k cs (n + 1) else none
    | [] => none

end Combinators

/-! ### Lookahead tests

Zero-width lookaheads of `DOCUMENT_HEADER_PATTERN` and `ARTICLE_PATTERN`.
Each alternative is `\n` followed by `\s*` (or `\s` / `\s+` between words);
since every following literal starts with a non-whitespace character, the
greedy whitespace runs are deterministic and are modelled by `dropWhile`. -/

def wsDrop (r : List Char) : List Char := r.dropWhile isPyWs

def afterNlWs : List Char → Option (List Char)
  | '\n' :: rest => some (wsDrop rest)
  | _ => none

/-- A single `\s` character. -/
def ws1 : List Char → Option (List Char)
  | c :: cs => if isPyWs c then some cs else none
  | [] => none

/-- `\s+` followed by a non-whitespace literal: one whitespace character and
then the maximal whitespace run. -/
def wsPlusDrop : List Char → Option (List Char)
  | c :: cs => if isPyWs c then some (wsDrop cs) else none
  | [] => none

/-- Lookahead alternative `\n\s*Le\sPrésident\sde\sla\sRépublique,`. -/
def lookPresident (r : List Char) : Bool :=
  (((((((((afterNlWs r).bind (stripPIC "Le".toList)).bind ws1).bind
    (stripPIC "Président".toList)).bind ws1).bind (stripPIC "de".toList)).bind ws1).bind
    (stripPIC "la".toList)).bind ws1).bind (stripPIC "République,".toList) |>.isSome

/-- Lookahead alternative `\n\s*Le\sPremier\sministre,`. -/
def lookPremier (r : List Char) : Bool :=
  (((((afterNlWs r).bind (stripPIC "Le".toList)).bind ws1).bind
    (stripPIC "Premier".toList)).bind ws1).bind (stripPIC "ministre,".toList) |>.isSome

/-- Lookahead alternative `\n\s*Vu\s+la\s+Constitution`. -/
def lookVu (r : List Char) : Bool :=
  (((((afterNlWs r).bind (stripPIC "Vu".toList)).bind wsPlusDrop).bind
    (stripPIC "la".toList)).bind wsPlusDrop).bind (stripPIC "Constitution".toList) |>.isSome

/-- Lookahead alternative `\n\s*Article\s*\d`. -/
def lookArticleNum (r : List Char) : Bool :=
  match (afterNlWs r).bind (stripPIC "Article".toList) with
  | some r1 =>
    match wsDrop r1 with
    | c :: _ => isAsciiDigit c
    | [] => false
  | none => false

/-- The positive lookahead of `DOCUMENT_HEADER_PATTERN`. -/
def headerLook (r : List Char) : Bool :=
  lookPresident r || lookPremier r || lookVu r || lookArticleNum r

/-! ### DOCUMENT_HEADER_PATTERN -/

/-- Character class `[\s\wéèçà\-\.\/]` of the `type` group. -/
def typeClass (c : Char) : Bool :=
  isPyWs c || isWordChar c || c == 'é' || c == 'è' || c == 'ç' || c == 'à' ||
  c == '-' || c == '.' || c == '/'

/-- Character class `[\d\s\-\.\/]` of the `number` group. -/
def numClass (c : Char) : Bool :=
  isAsciiDigit c || isPyWs c || c == '-' || c == '.' || c == '/'

/-- The keyword alternation `(?:Décret|Loi|Arrêté|Décision)`, shared by
`DOCUMENT_START_PATTERN` and the `type` group of `DOCUMENT_HEADER_PATTERN`. -/
def hdrKeywords : List (List Char) :=
  ["Décret".toList, "Loi".toList, "Arrêté".toList, "Décision".toList]

/-- Captures of a `DOCUMENT_HEADER_PATTERN` match: the four named groups and
the length of the whole match. -/
structure FullCaps where
  dtype : List Char
  number : List Char
  date : List Char
  title : List Char
  mlen : Nat
deriving DecidableEq, Repr

section HeaderMatchers

variable {R : Type}

/-- The action-verb alternation
`(?:portant|relative\s+au|fixant|modifiant|mettant|portant)` in pattern
order. -/
def verbK (k : MatchCont R) : MatchCont R :=
  fun r n =>
    match litICK "portant".toList k r n with
    | some x => some x
    | none =>
    match litICK "relative".toList (gPlusK isPyWs (litICK "au".toList k)) r n with
    | some x => some x
    | none =>
    match litICK "fixant".toList k r n with
    | some x => some x
    | none =>
    match litICK "modifiant".toList k r n with
    | some x => some x
    | none =>
    match litICK "mettant".toList k r n with
    | some x => some x
    | none => litICK "portant".toList k r n

end HeaderMatchers

/-- Attempt `DOCUMENT_HEADER_PATTERN` (without its `^` anchor, which the
search driver enforces) at the start of `t`.  Verbatim translation of the
pattern:
type keyword, `[\s\wéèçà\-\.\/]+?`, `\s+n°\s*`, `[\d\s\-\.\/]+?`,
`\s+du\s+`, `.*?` (DOTALL), `\s+` verb `\s+`, `.*?` (DOTALL), lookahead. -/
def fullHeaderAt (t : List Char) : Option FullCaps :=
  hdrKeywords.findSome? fun kw =>
    match stripPIC kw t with
    | none => none
    | some r1 =>
      ngPlusK typeClass
        (fun r2 n2 =>
          gPlusK isPyWs (litICK "n°".toList (gStarK isPyWs
            (fun r3 n3 =>
              ngPlusK numClass
                (fun r4 n4 =>
                  gPlusK isPyWs (litICK "du".toList (gPlusK isPyWs
                    (fun r5 n5 =>
                      ngStarK anyC
                        (fun r6 n6 =>
                          gPlusK isPyWs (verbK (gPlusK isPyWs
                            (fun r7 n7 =>
                              ngStarK anyC
                                (fun r8 n8 =>
                                  if headerLook r8 then
                                    some { dtype := t.take n2, number := slice t n3 n4,
                                           date := slice t n5 n6, title := slice t n7 n8,
                                           mlen := n8 }
                                  else none)
                                r7 n7)))
                            r6 n6)
                        r5 n5)))
                    r4 n4)
                r3 n3)))
            r2 n2)
        r1 kw.length

/-! ### INDIVIDUAL_DECISION_PATTERN -/

/-- Captures of an `INDIVIDUAL_DECISION_PATTERN` match (this pattern has no
`number` group). -/
structure IndCaps where
  dtype : List Char
  date : List Char
  title : List Char
  mlen : Nat
deriving DecidableEq, Repr

section IndMatchers

variable {R : Type}

/-- `(?:présidentiel|exécutif)` in pattern order. -/
def indQualK (k : MatchCont R) : MatchCont R :=
  fun r n =>
    match litICK "présidentiel".toList k r n with
    | some x => some x
    | none => litICK "exécutif".toList k r n

/-- The `type` group `Décret\s(?:présidentiel|exécutif)|Arrêté` in pattern
order. -/
def indTypeK (k : MatchCont R) : MatchCont R :=
  fun r n =>
    match litICK "Décret".toList (charK isPyWs (indQualK k)) r n with
    | some x => some x
    | none => litICK "Arrêté".toList k r n

/-- The `title` prefix alternation `(?:mettant\sfin|portant\snomination)`. -/
def indTitleK (k : MatchCont R) : MatchCont R :=
  fun r n =>
    match litICK "mettant".toList (charK isPyWs (litICK "fin".toList k)) r n with
    | some x => some x
    | none => litICK "portant".toList (charK isPyWs (litICK "nomination".toList k)) r n

end IndMatchers

/-- Attempt `INDIVIDUAL_DECISION_PATTERN` (without its `^` anchor) at the
start of `t`.  No DOTALL flag here: `.` does not match `\n`, and the final
greedy `.*` of the title deterministically extends to the end of the line. -/
def indHeaderAt (t : List Char) : Option IndCaps :=
  indTypeK
    (fun r1 n1 =>
      gPlusK isPyWs (litICK "du".toList (gPlusK isPyWs
        (fun r2 n2 =>
          ngPlusK notNl
            (fun r3 n3 =>
              gPlusK isPyWs
                (fun r4 n4 =>
                  indTitleK
                    (fun r5 n5 =>
                      let m := (r5.takeWhile notNl).length
                      some { dtype := t.take n1, date := slice t n2 n3,
                             title := slice t n4 (n5 + m), mlen := n5 + m })
                    r4 n4)
                r3 n3)
            r2 n2)))
        r1 n1)
    t 0

/-! ### ARTICLE_PATTERN (case-sensitive, DOTALL) -/

/-- Captures of an `ARTICLE_PATTERN` match. -/
structure ArtCap where
  number : List Char
  content : List Char
  mlen : Nat
deriving DecidableEq, Repr

/-- Lookahead alternative `\n\s*(?:Art|Article)\.` of `ARTICLE_PATTERN`. -/
def artLookKw (r : List Char) : Bool :=
  match afterNlWs r with
  | some r1 => startsWithL "Art.".toList r1 || startsWithL "Article.".toList r1
  | none => false

/-- Lookahead alternative `\n\s*Fait\sà\sAlger`. -/
def artLookFait (r : List Char) : Bool :=
  (((((afterNlWs r).bind (stripP "Fait".toList)).bind ws1).bind
    (stripP "à".toList)).bind ws1).bind (stripP "Alger".toList) |>.isSome

/-- Lookahead alternative `\n\s*Le\sministre`. -/
def artLookMinistre (r : List Char) : Bool :=
  (((afterNlWs r).bind (stripP "Le".toList)).bind ws1).bind
    (stripP "ministre".toList) |>.isSome

/-- Lookahead alternative `\n\s*Par\s+ces\s+motifs`. -/
def artLookMotifs (r : List Char) : Bool :=
  (((((afterNlWs r).bind (stripP "Par".toList)).bind wsPlusDrop).bind
    (stripP "ces".toList)).bind wsPlusDrop).bind (stripP "motifs".toList) |>.isSome

/-- The `$` alternative: end of string, or just before a trailing newline
(Python `$` without `re.MULTILINE`). -/
def dollarEnd : List Char → Bool
  | [] => true
  | ['\n'] => true
  | _ => false

/-- The positive lookahead of `ARTICLE_PATTERN`. -/
def artLook (r : List Char) : Bool :=
  artLookKw r || artLookFait r || artLookMinistre r || artLookMotifs r || dollarEnd r

section ArtMatchers

variable {R : Type}

/-- `(?:Art|Article)\.` with full backtracking: `Art` is tried first; if the
following `\.` (or anything later) fails, `Article` is tried. -/
def artKwK (k : MatchCont R) : MatchCont R :=
  fun r n =>
    match litK "Art".toList (litK ".".toList k) r n with
    | some x => some x
    | none => litK "Article".toList (litK ".".toList k) r n

/-- Optional `(?:er)?` (greedy). -/
def erOptK (k : MatchCont R) : MatchCont R :=
  fun r n =>
    match litK "er".toList k r n with
    | some x => some x
    | none => k r n

/-- Optional `[—\-]?` (greedy). -/
def dashOptK (k : MatchCont R) : MatchCont R :=
  fun r n =>
    match charK (fun c => c == '—' || c == '-') k r n with
    | some x => some x
    | none => k r n

end ArtMatchers

/-- Attempt `ARTICLE_PATTERN` at the start of `t`:
`\n\s*(?:Art|Article)\.\s*([\w\d]+(?:er)?)\s*[—\-]?\s*(.*?)` + lookahead. -/
def articleAt (t : List Char) : Option ArtCap :=
  charK (fun c => c == '\n')
    (gStarK isPyWs
      (artKwK (gStarK isPyWs
        (fun rN nN =>
          gPlusK isWordChar
            (erOptK
              (fun rB nB =>
                gStarK isPyWs (dashOptK (gStarK isPyWs
                  (fun rC nC =>
                    ngStarK anyC
                      (fun rD nD =>
                        if artLook rD then
                          some { number := slice t nN nB, content := slice t nC nD,
                                 mlen := nD }
                        else none)
                      rC nC)))
                  rB nB))
            rN nN))))
    t 0

/-! ### Search and finditer drivers -/

/-- `re.search` for a `^`-anchored pattern under `re.MULTILINE`: try every
position from left to right; the pattern body is attempted only at position 0
or just after a `'\n'`.  Returns the start position and the captures of the
leftmost match. -/
def searchAux (m : List Char → Option α) : List Char → Bool → Nat → Option (Nat × α)
  | [], ls, pos => if ls then (m []).map (fun c => (pos, c)) else none
  | c :: cs, ls, pos =>
    match (if ls then m (c :: cs) else none) with
    | some cap => some (pos, cap)
    | none => searchAux m cs (c == '\n') (pos + 1)

/-- `DOCUMENT_HEADER_PATTERN.search`. -/
def fullSearch (t : List Char) : Option (Nat × FullCaps) := searchAux fullHeaderAt t true 0

/-- `INDIVIDUAL_DECISION_PATTERN.search`. -/
def indSearch (t : List Char) : Option (Nat × IndCaps) := searchAux indHeaderAt t true 0

/-- `ARTICLE_PATTERN.finditer`: scan left to right; after a match of length
`L ≥ 1` the scan resumes just past its end, i.e. the next `L - 1` positions
are not attempted (`skip` counts them). -/
def artFindsAux : List Char → Nat → Nat → List (Nat × ArtCap)
  | [], _, _ => []
  | c :: cs, pos, skip =>
    match skip with
    | s + 1 => artFindsAux cs (pos + 1) s
    | 0 =>
      match articleAt (c :: cs) with
      | some cap => (pos, cap) :: artFindsAux cs (pos + 1) (cap.mlen - 1)
      | none => artFindsAux cs (pos + 1) 0

def artFinds (t : List Char) : List (Nat × ArtCap) := artFindsAux t 0 0

/-- The body of `DOCUMENT_START_PATTERN` (`^(?:Décret|Loi|Arrêté|Décision)\s`)
at the start of `r`; returns the match length. -/
def docStartAt (r : List Char) : Option Nat :=
  hdrKeywords.findSome? fun kw =>
    match stripPIC kw r with
    | some (c :: _) => if isPyWs c then some (kw.length + 1) else none
    | _ => none

/-- `DOCUMENT_START_PATTERN.finditer`, keeping only the match start
positions (the code uses `match.start()`).  After a match of length `L ≥ 1`
the scan resumes just past its end: the next `L - 1` positions are skipped. -/
def docStartsAux : List Char → Bool → Nat → Nat → List Nat
  | [], _, _, _ => []
  | c :: cs, ls, pos, skip =>
    match skip with
    | s + 1 => docStartsAux cs (c == '\n') (pos + 1) s
    | 0 =>
      match (if ls then docStartAt (c :: cs) else none) with
      | some L => pos :: docStartsAux cs (c == '\n') (pos + 1) (L - 1)
      | none => docStartsAux cs (c == '\n') (pos + 1) 0

def docStarts (content : List Char) : List Nat := docStartsAux content true 0 0

/-! ### LegalParser helper stages -/

/-- `re.sub(pat, '', text)` for a pattern matched by `m` (which returns the
match length `L ≥ 1`); the matched span is dropped (`skip` counts the
remaining characters of a match being removed) and the scan resumes after
it. -/
def subAllAux (m : List Char → Option Nat) : List Char → Nat → List Char
  | [], _ => []
  | c :: cs, skip =>
    match skip with
    | s + 1 => subAllAux m cs s
    | 0 =>
      match m (c :: cs) with
      | some L => subAllAux m cs (L - 1)
      | none => c :: subAllAux m cs 0

def subAll (m : List Char → Option Nat) (t : List Char) : List Char := subAllAux m t 0

/-- Matcher for the literal `--- NEW PAGE ---`. -/
def pageSepAt (r : List Char) : Option Nat :=
  if startsWithL "--- NEW PAGE ---".toList r then some ("--- NEW PAGE ---".toList).length
  else none

/-- Matcher for `\n\s*9 Joumada Ethania 1446\n.*` (no DOTALL: `.*` runs to
the end of the line). -/
def joumadaAt (r : List Char) : Option Nat :=
  match r with
  | '\n' :: rest =>
    let w := rest.takeWhile isPyWs
    match stripP "9 Joumada Ethania 1446".toList (rest.drop w.length) with
    | some ('\n' :: r2) =>
      some (1 + w.length + ("9 Joumada Ethania 1446".toList).length + 1 +
        (r2.takeWhile notNl).length)
    | _ => none
  | _ => none

/-- Matcher for `\n\s*JOURNAL OFFICIEL DE LA REPUBLIQUE ALGERIENNE N° \d+`. -/
def journalAt (r : List Char) : Option Nat :=
  match r with
  | '\n' :: rest =>
    let w := rest.takeWhile isPyWs
    match stripP "JOURNAL OFFICIEL DE LA REPUBLIQUE ALGERIENNE N° ".toList
        (rest.drop w.length) with
    | some r2 =>
      let d := (r2.takeWhile isAsciiDigit).length
      if d == 0 then none
      else some (1 + w.length +
        ("JOURNAL OFFICIEL DE LA REPUBLIQUE ALGERIENNE N° ".toList).length + d)
    | none => none
  | _ => none

/-- `LegalParser._pre_clean_gazette`: the three `re.sub` calls in order. -/
def preCleanGazette (text : List Char) : List Char :=
  subAll journalAt (subAll joumadaAt (subAll pageSepAt text))

/-- Matcher for `SOMMAIRE(?: \(suite\))?` under `re.IGNORECASE`; the optional
group is greedy. -/
def sommaireAt (r : List Char) : Option Nat :=
  match stripPIC "SOMMAIRE".toList r with
  | some r1 =>
    match stripPIC " (suite)".toList r1 with
    | some _ => some (("SOMMAIRE".toList).length + (" (suite)".toList).length)
    | none => some ("SOMMAIRE".toList).length
  | none => none

/-- Leftmost match of an unanchored pattern; returns position and length. -/
def scanFirstAux (m : List Char → Option Nat) : List Char → Nat → Option (Nat × Nat)
  | [], pos => (m []).map (fun L => (pos, L))
  | c :: cs, pos =>
    match m (c :: cs) with
    | some L => some (pos, L)
    | none => scanFirstAux m cs (pos + 1)

/-- `LegalParser._find_content_start`: everything after the first
`SOMMAIRE(?: \(suite\))?` match (`re.split` with `maxsplit=1`); the whole
text if the marker is absent. -/
def findContentStart (t : List Char) : List Char :=
  match scanFirstAux sommaireAt t 0 with
  | some pL => t.drop (pL.1 + pL.2)
  | none => t

/-! ### Field cleaner -/

/-- `text.replace('\n', ' ')`. -/
def mapNl (t : List Char) : List Char := t.map (fun c => if c == '\n' then ' ' else c)

/-- Trailing-whitespace trim (structural form of the right half of
`str.strip`). -/
def rtrimWs : List Char → List Char
  | [] => []
  | c :: cs =>
    match rtrimWs cs with
    | [] => if isPyWs c then [] else [c]
    | r => c :: r

/-- Python `str.strip()`. -/
def pyStrip (t : List Char) : List Char := rtrimWs (t.dropWhile isPyWs)

/-- `re.sub(r'\s+', ' ', text)`: every maximal whitespace run becomes a
single space. -/
def collapseWs : List Char → List Char
  | [] => []
  | [c] => if isPyWs c then [' '] else [c]
  | c :: d :: rest =>
    if isPyWs c && isPyWs d then collapseWs (d :: rest)
    else (if isPyWs c then ' ' else c) :: collapseWs (d :: rest)

/-- The `lstrip('.- ')` character set. -/
def stripSetC (c : Char) : Bool := c == '.' || c == '-' || c == ' '

/-- `LegalParser._clean_field`:
`text.replace('\n',' ').strip()`, then `re.sub(r'\s+',' ',text)`, then
`text.lstrip('.- ').strip()`. -/
def cleanField (t : List Char) : List Char :=
  pyStrip ((collapseWs (pyStrip (mapNl t))).dropWhile stripSetC)

/-! ### LegalParser documents -/

def sNA : List Char := "N/A".toList

structure Article where
  number : List Char
  content : List Char
deriving DecidableEq, Repr

structure ParsedDoc where
  document_type : List Char
  official_number : List Char
  date : List Char
  title : List Char
  articles : List Article
deriving DecidableEq, Repr

/-- The record built per `ARTICLE_PATTERN` match in
`LegalParser.parse_articles`. -/
def artToArticle (cap : ArtCap) : Article :=
  { number := cleanField cap.number, content := cleanField cap.content }

/-- `LegalParser.parse_articles`. -/
def parse_articles (t : List Char) : List Article :=
  (artFinds t).map (fun pc => artToArticle pc.2)

/-- The header fields as captured (before cleaning), the `is_individual`
flag, and the end offset of the header match. -/
structure RawHeader where
  dtype : List Char
  number : List Char
  date : List Char
  title : List Char
deriving DecidableEq, Repr

/-- Lines 58–65 of `parser.py`: try `DOCUMENT_HEADER_PATTERN` first, then
`INDIVIDUAL_DECISION_PATTERN`; the individual pattern has no `number` group,
so `groupdict().get("number", "N/A")` yields the sentinel there. -/
def hdrSearch (t : List Char) : Option (RawHeader × Bool × Nat) :=
  match fullSearch t with
  | some pc =>
    some ({ dtype := pc.2.dtype, number := pc.2.number, date := pc.2.date,
            title := pc.2.title }, false, pc.1 + pc.2.mlen)
  | none =>
    match indSearch t with
    | some pc =>
      some ({ dtype := pc.2.dtype, number := sNA, date := pc.2.date,
              title := pc.2.title }, true, pc.1 + pc.2.mlen)
    | none => none

/-- `LegalParser.parse_document`, additionally returning the
`is_individual` flag (a local variable in the source). -/
def parseDocumentEx (t : List Char) : Option (ParsedDoc × Bool) :=
  match hdrSearch t with
  | none => none
  | some hie =>
    let document_type := cleanField hie.1.dtype
    let official_number := cleanField hie.1.number
    let date := cleanField hie.1.date
    let title := cleanField hie.1.title
    let articles := if hie.2.1 then [] else parse_articles (t.drop hie.2.2)
    if title = sNA ∧ articles = [] then none
    else some ({ document_type := document_type, official_number := official_number,
                 date := date, title := title, articles := articles }, hie.2.1)

/-- `LegalParser.parse_document`. -/
def parse_document (t : List Char) : Option ParsedDoc :=
  (parseDocumentEx t).map Prod.fst

/-! ### process_full_gazette -/

/-- The segment ranges built by lines 110–114 of `parser.py`:
`[starts[i], starts[i+1])`, the last segment extending to `len(content)`. -/
def segRanges : List Nat → Nat → List (Nat × Nat)
  | [], _ => []
  | [a], n => [(a, n)]
  | a :: b :: rest, n => (a, b) :: segRanges (b :: rest) n

/-- The segment texts of one gazette content string. -/
def docTextsOf (content : List Char) : List (List Char) :=
  (segRanges (docStarts content) content.length).map (fun ab => slice content ab.1 ab.2)

/-- The quality filter applied per parsed document in
`process_full_gazette` (lines 121–129). -/
def keepDoc (d : ParsedDoc) : Bool :=
  if d.official_number = sNA ∧ d.articles = [] then
    containsSub "nomination".toList d.title || containsSub "mettant fin".toList d.title
  else true

/-- Parse one segment and apply the quality filter: the per-segment outcome
of the `process_full_gazette` loop. -/
def acceptSegment (t : List Char) : Option ParsedDoc :=
  match parse_document t with
  | some d => if keepDoc d then some d else none
  | none => none

/-- `LegalParser.process_full_gazette`, with the loop body verbatim. -/
def process_full_gazette (full_text : List Char) : List ParsedDoc :=
  let cleaned := preCleanGazette full_text
  let main := findContentStart cleaned
  let starts := docStarts main
  if starts.isEmpty then []
  else
    ((segRanges starts main.length).map (fun ab => slice main ab.1 ab.2)).foldl
      (fun acc t =>
        match parse_document t with
        | some d =>
          if d.official_number = sNA ∧ d.articles = [] then
            if containsSub "nomination".toList d.title ||
                containsSub "mettant fin".toList d.title then acc ++ [d]
            else acc
          else acc ++ [d]
        | none => acc)
      []

/-! ### Classifier -/

/-- `DocumentClassifier.classify` as a function of the `document_type`
string (the source reads `document.get("document_type", "")` and lowercases
it). -/
def classify (document_type : List Char) : List Char :=
  let doc_type := document_type.map pyLower
  if containsSub "décret".toList doc_type then "Decree".toList
  else if containsSub "loi".toList doc_type then "Law".toList
  else if containsSub "arrêté".toList doc_type then "Order".toList
  else if containsSub "décision".toList doc_type then "Decision".toList
  else if containsSub "circulaire".toList doc_type then "Circular".toList
  else if containsSub "ordonnance".toList doc_type then "Ordinance".toList
  else "Uncategorized".toList

/-! ### Chunker -/

/-- A document as consumed by the chunker: the parsed fields plus the
`category` attached by `doc['category'] = classifier.classify(doc)`
(tools/run_full_pipeline.py, line 127). -/
structure RagDoc where
  document_type : List Char
  official_number : List Char
  date : List Char
  title : List Char
  articles : List Article
  category : List Char
deriving DecidableEq, Repr

def withCategory (d : ParsedDoc) : RagDoc :=
  { document_type := d.document_type, official_number := d.official_number,
    date := d.date, title := d.title, articles := d.articles,
    category := classify d.document_type }

structure ChunkMeta where
  source_document_type : List Char
  source_official_number : List Char
  source_date : List Char
  source_category : List Char
  source_article_number : List Char
deriving DecidableEq, Repr

structure Chunk where
  text : List Char
  metadata : ChunkMeta
deriving DecidableEq, Repr

/-- `DocumentChunker.chunk_document` (the generator collected to a list). -/
def chunk_document (document : RagDoc) : List Chunk :=
  match document.articles with
  | [] =>
    [{ text := document.document_type ++ ": ".toList ++ document.title,
       metadata := { source_document_type := document.document_type,
                     source_official_number := document.official_number,
                     source_date := document.date,
                     source_category := document.category,
                     source_article_number := sNA } }]
  | arts =>
    arts.map fun article =>
      { text := "Article ".toList ++ article.number ++ ": ".toList ++ article.content,
        metadata := { source_document_type := document.document_type,
                      source_official_number := document.official_number,
                      source_date := document.date,
                      source_category := document.category,
                      source_article_number := article.number } }

/-! ### Concrete inputs and records used by the claim theorems -/

/-- The end-to-end scenario A input. -/
def inA : List Char :=
  ("SOMMAIRE\nDécret exécutif n° 24-100 du 12 janvier 2024 portant création d'un établissement\nLe Président de la République,\n...\nArticle 1er. — Il est créé...\nArticle 2. — Le présent décret...\nFait à Alger, le 12 janvier 2024.").toList

/-- The document the code actually produces for scenario A (note: zero
articles). -/
def docA : ParsedDoc :=
  { document_type := ("Décret exécutif").toList,
    official_number := ("24-100").toList,
    date := ("12 janvier 2024").toList,
    title := ("création d'un établissement").toList,
    articles := [] }

/-- The single (title-only) chunk the code produces for scenario A. -/
def chunkA : Chunk :=
  { text := ("Décret exécutif: création d'un établissement").toList,
    metadata := { source_document_type := ("Décret exécutif").toList,
                  source_official_number := ("24-100").toList,
                  source_date := ("12 janvier 2024").toList,
                  source_category := ("Decree").toList,
                  source_article_number := sNA } }

/-- The end-to-end scenario B input. -/
def inB : List Char :=
  ("Décret présidentiel du 3 mars 2024 mettant fin aux fonctions de M. X.").toList

def docB : ParsedDoc :=
  { document_type := ("Décret présidentiel").toList,
    official_number := sNA,
    date := ("3 mars 2024").toList,
    title := ("mettant fin aux fonctions de M. X.").toList,
    articles := [] }

def chunkB : Chunk :=
  { text := ("Décret présidentiel: mettant fin aux fonctions de M. X.").toList,
    metadata := { source_document_type := ("Décret présidentiel").toList,
                  source_official_number := sNA,
                  source_date := ("3 mars 2024").toList,
                  source_category := ("Decree").toList,
                  source_article_number := sNA } }

/-- Scenario B with the allowlist phrase in upper case. -/
def inC : List Char :=
  ("Décret présidentiel du 3 mars 2024 METTANT FIN aux fonctions de M. X.").toList

def docC : ParsedDoc :=
  { document_type := ("Décret présidentiel").toList,
    official_number := sNA,
    date := ("3 mars 2024").toList,
    title := ("METTANT FIN aux fonctions de M. X.").toList,
    articles := [] }

/-- A segment whose header ends strictly before an `Art. 1.` body. -/
def tC : List Char :=
  ("Décret exécutif n° 1-1 du 2 mars 2020 portant test\nLe Premier ministre,\nArt. 1. — contenu\nFait à Alger").toList

/-- The captures of the full-header match on `tC`. -/
def capC : FullCaps :=
  { dtype := ("Décret exécutif").toList, number := ("1-1").toList,
    date := ("2 mars 2020").toList, title := ("test").toList, mlen := 50 }

def dC : ParsedDoc :=
  { document_type := ("Décret exécutif").toList,
    official_number := ("1-1").toList,
    date := ("2 mars 2020").toList,
    title := ("test").toList,
    articles := [{ number := ("1").toList, content := ("— contenu").toList }] }

/-- Content whose first act boundary is not at offset 0. -/
def tX : List Char := ("x\nLoi q").toList

/-- Is offset `i` covered by one of the segment ranges? -/
def covered (rs : List (Nat × Nat)) (i : Nat) : Bool :=
  rs.any (fun pq => pq.1 ≤ i && i < pq.2)

/-- A classified document with two articles, used to exercise the chunker. -/
def ragW : RagDoc :=
  { document_type := ("Loi").toList, official_number := ("24-01").toList,
    date := ("5 mai 2024").toList, title := ("t").toList,
    articles := [{ number := ("1er").toList, content := ("x").toList },
                 { number := ("2").toList, content := ("y").toList }],
    category := ("Law").toList }

/-! ### Claim theorems -/

/-- C1: evaluation of the pipeline at the scenario A input.  The code
produces one Document whose header fields and category are as the claim
states, but with ZERO articles (ARTICLE_PATTERN requires a literal period
immediately after `Art`/`Article`, so the lines `Article 1er. — …` and
`Article 2. — …` are not matched), and chunking therefore yields exactly one
title chunk instead of the two article chunks the claim demands. -/
theorem scenarioA_zero_articles_eval :
    process_full_gazette inA = [docA] ∧
    docA.articles = [] ∧
    classify docA.document_type = ("Decree").toList ∧
    chunk_document (withCategory docA) = [chunkA] :=
  ⟨by decide, rfl, by decide, by decide⟩

/-- C10: the personnel-action allowlist test is case-sensitive although the
header patterns match case-insensitively: on `inC` (scenario B with
`METTANT FIN` upper-cased) the individual-decision pattern matches and
`parse_document` returns a document, but `"mettant fin"` is not a substring
of its title, so `process_full_gazette` drops it and returns no documents. -/
theorem allowlist_case_sensitive_drop :
    (indSearch inC).isSome = true ∧
    parse_document inC = some docC ∧
    containsSub ("mettant fin").toList docC.title = false ∧
    containsSub ("nomination").toList docC.title = false ∧
    process_full_gazette inC = [] :=
  ⟨by decide, by decide, by decide, by decide, by decide⟩

/-- C6: the classifier is a total deterministic function of the
`document_type` string: it always returns one of the seven fixed categories,
decided by case-insensitive substring containment against the ordered table
décret → Decree, loi → Law, arrêté → Order, décision → Decision,
circulaire → Circular, ordonnance → Ordinance, where the first matching
entry wins and Uncategorized is returned when no keyword occurs. -/
theorem classify_total_ordered_table (s : List Char) :
    (classify s = ("Decree").toList ∨ classify s = ("Law").toList ∨
     classify s = ("Order").toList ∨ classify s = ("Decision").toList ∨
     classify s = ("Circular").toList ∨ classify s = ("Ordinance").toList ∨
     classify s = ("Uncategorized").toList) ∧
    (containsSub ("décret").toList (s.map pyLower) = true →
      classify s = ("Decree").toList) ∧
    (containsSub ("décret").toList (s.map pyLower) = false →
     containsSub ("loi").toList (s.map pyLower) = true →
      classify s = ("Law").toList) ∧
    (containsSub ("décret").toList (s.map pyLower) = false →
     containsSub ("loi").toList (s.map pyLower) = false →
     containsSub ("arrêté").toList (s.map pyLower) = true →
      classify s = ("Order").toList) ∧
    (containsSub ("décret").toList (s.map pyLower) = false →
     containsSub ("loi").toList (s.map pyLower) = false →
     containsSub ("arrêté").toList (s.map pyLower) = false →
     containsSub ("décision").toList (s.map pyLower) = true →
      classify s = ("Decision").toList) ∧
    (containsSub ("décret").toList (s.map pyLower) = false →
     containsSub ("loi").toList (s.map pyLower) = false →
     containsSub ("arrêté").toList (s.map pyLower) = false →
     containsSub ("décision").toList (s.map pyLower) = false →
     containsSub ("circulaire").toList (s.map pyLower) = true →
      classify s = ("Circular").toList) ∧
    (containsSub ("décret").toList (s.map pyLower) = false →
     containsSub ("loi").toList (s.map pyLower) = false →
     containsSub ("arrêté").toList (s.map pyLower) = false →
     containsSub ("décision").toList (s.map pyLower) = false →
     containsSub ("circulaire").toList (s.map pyLower) = false →
     containsSub ("ordonnance").toList (s.map pyLower) = true →
      classify s = ("Ordinance").toList) ∧
    (containsSub ("décret").toList (s.map pyLower) = false →
     containsSub ("loi").toList (s.map pyLower) = false →
     containsSub ("arrêté").toList (s.map pyLower) = false →
     containsSub ("décision").toList (s.map pyLower) = false →
     containsSub ("circulaire").toList (s.map pyLower) = false →
     containsSub ("ordonnance").toList (s.map pyLower) = false →
      classify s = ("Uncategorized").toList) := by
  cases h1 : containsSub ("décret").toList (s.map pyLower) <;>
  cases h2 : containsSub ("loi").toList (s.map pyLower) <;>
  cases h3 : containsSub ("arrêté").toList (s.map pyLower) <;>
  cases h4 : containsSub ("décision").toList (s.map pyLower) <;>
  cases h5 : containsSub ("circulaire").toList (s.map pyLower) <;>
  cases h6 : containsSub ("ordonnance").toList (s.map pyLower) <;>
  simp_all [classify]

/-- C6 witness: the classifier theorem applied at a concrete type string. -/
theorem classify_total_ordered_table_witness :
    classify (("Décret exécutif").toList) = ("Decree").toList :=
  (classify_total_ordered_table (("Décret exécutif").toList)).2.1 (by decide)

/-- C8: chunker cardinality and shape: a document with articles yields one
chunk per article, in order, with text `Article NUMBER: CONTENT` and the
article number in the metadata; a document with zero articles yields exactly
one chunk `TYPE: TITLE` with the sentinel article number; every chunk copies
the document's type, number, date and category under the `source_*` keys. -/
theorem chunk_document_cardinality (d : RagDoc) :
    (d.articles = [] →
      chunk_document d =
        [{ text := d.document_type ++ (": ").toList ++ d.title,
           metadata := { source_document_type := d.document_type,
                         source_official_number := d.official_number,
                         source_date := d.date,
                         source_category := d.category,
                         source_article_number := sNA } }]) ∧
    (∀ a arts, d.articles = a :: arts →
      chunk_document d =
        (a :: arts).map (fun article =>
          { text := ("Article ").toList ++ article.number ++ (": ").toList ++ article.content,
            metadata := { source_document_type := d.document_type,
                          source_official_number := d.official_number,
                          source_date := d.date,
                          source_category := d.category,
                          source_article_number := article.number } }) ∧
      (chunk_document d).length = d.articles.length) := by
  constructor
  · intro h
    simp [chunk_document, h]
  · intro a arts h
    simp [chunk_document, h]

/-- C8 witness: the chunker theorem applied to a concrete two-article
document. -/
theorem chunk_document_cardinality_witness :
    (chunk_document ragW).length = 2 := by
  have h := (chunk_document_cardinality ragW).2
    { number := ("1er").toList, content := ("x").toList }
    [{ number := ("2").toList, content := ("y").toList }] rfl
  exact h.2.trans (by decide)

/-- The cleaner fixes the sentinel. -/
theorem cleanField_sNA : cleanField sNA = sNA := by decide

/-- If a guarded rejection produced `some`, the guard was false and the
payload is the unguarded one. -/
theorem opt_ite_eq_some {α : Type} {c : Prop} [Decidable c] {x y : α}
    (h : (if c then none else some x) = some y) : x = y := by
  by_cases hc : c
  · simp [hc] at h
  · simp [hc] at h
    exact h

/-- C9: scenario B end to end — one Document matched by the
individual-decision pattern (`is_individual = true`) with sentinel
`official_number` and no articles, accepted by the allowlist, chunked to a
single title chunk — and in general every document produced in
individual-decision mode has `official_number = "N/A"`, since that pattern
has no number group. -/
theorem individual_mode_number_sentinel :
    (process_full_gazette inB = [docB] ∧
     parseDocumentEx inB = some (docB, true) ∧
     chunk_document (withCategory docB) = [chunkB]) ∧
    (∀ t d fl, parseDocumentEx t = some (d, fl) → fl = true →
      d.official_number = sNA) := by
  refine ⟨⟨by decide, by decide, by decide⟩, ?_⟩
  intro t d fl h hfl
  subst hfl
  cases hf : fullSearch t with
  | some pc =>
    simp only [parseDocumentEx, hdrSearch, hf] at h
    injection opt_ite_eq_some h with h3 h4
    simp at h4
  | none =>
    cases hi : indSearch t with
    | none => simp [parseDocumentEx, hdrSearch, hf, hi] at h
    | some pc =>
      simp only [parseDocumentEx, hdrSearch, hf, hi] at h
      injection opt_ite_eq_some h with h3 h4
      rw [← h3]
      exact cleanField_sNA

/-- C9 witness: the general sentinel statement applied at the scenario B
input. -/
theorem individual_mode_number_sentinel_witness :
    docB.official_number = sNA :=
  individual_mode_number_sentinel.2 inB docB true (by decide) rfl

/-- C4: header extraction tries the full-header pattern first and the
individual-decision pattern only on failure; if both fail the segment
yields `none` (it is dropped, processing continues — the function is total);
and for every parsed result the `is_individual` flag is true exactly when
the full-header pattern failed (so the individual pattern supplied the
match). -/
theorem header_pattern_precedence (t : List Char) :
    (fullSearch t = none → indSearch t = none → parse_document t = none) ∧
    (∀ d fl, parseDocumentEx t = some (d, fl) → (fl = true ↔ fullSearch t = none)) := by
  constructor
  · intro hf hi
    simp [parse_document, parseDocumentEx, hdrSearch, hf, hi]
  · intro d fl h
    cases hf : fullSearch t with
    | some pc =>
      simp only [parseDocumentEx, hdrSearch, hf] at h
      injection opt_ite_eq_some h with h3 h4
      subst h4
      simp [hf]
    | none =>
      cases hi : indSearch t with
      | none => simp [parseDocumentEx, hdrSearch, hf, hi] at h
      | some pc =>
        simp only [parseDocumentEx, hdrSearch, hf, hi] at h
        injection opt_ite_eq_some h with h3 h4
        subst h4
        simp [hf]

/-- C4 witness: at the scenario B input the parsed flag is `true`, hence the
full-header search failed there. -/
theorem header_pattern_precedence_witness :
    fullSearch inB = none :=
  ((header_pattern_precedence inB).2 docB true (by decide)).mp rfl

/-- The `process_full_gazette` loop accumulates exactly the per-segment
outcomes: folding the loop body is appending the `filterMap` of
`acceptSegment`. -/
theorem process_loop_filterMap (l : List (List Char)) (acc : List ParsedDoc) :
    l.foldl
      (fun acc t =>
        match parse_document t with
        | some d =>
          if d.official_number = sNA ∧ d.articles = [] then
            if containsSub ("nomination").toList d.title ||
                containsSub ("mettant fin").toList d.title then acc ++ [d]
            else acc
          else acc ++ [d]
        | none => acc)
      acc = acc ++ l.filterMap acceptSegment := by
  induction l generalizing acc with
  | nil => simp
  | cons t l ih =>
    rw [List.foldl_cons, ih]
    clear ih
    cases hp : parse_document t with
    | none => simp [List.filterMap_cons, acceptSegment, hp]
    | some d =>
      by_cases hc : d.official_number = sNA ∧ d.articles = []
      · cases hb : (containsSub ("nomination").toList d.title ||
            containsSub ("mettant fin").toList d.title) <;>
          simp_all [List.filterMap_cons, acceptSegment, keepDoc]
      · simp [List.filterMap_cons, acceptSegment, keepDoc, hp, hc]

/-- C5: the validator.  (1) A structurally matched segment whose cleaned
title is the sentinel and whose article list is empty is rejected inside
`parse_document` itself — the header stage, before the allowlist is ever
consulted; (2) a parsed document with sentinel `official_number` and no
articles is dropped unless its title contains `nomination` or
`mettant fin`, (3) in which case it is kept; (4) processing is an
independent per-segment `filterMap`, so one rejection never aborts the
other segments. -/
theorem validator_rules :
    (∀ t hd ind e, hdrSearch t = some (hd, ind, e) →
      cleanField hd.title = sNA →
      (if ind then ([] : List Article) else parse_articles (t.drop e)) = [] →
      parse_document t = none) ∧
    (∀ t d, parse_document t = some d → d.official_number = sNA → d.articles = [] →
      containsSub ("nomination").toList d.title = false →
      containsSub ("mettant fin").toList d.title = false →
      acceptSegment t = none) ∧
    (∀ t d, parse_document t = some d → d.official_number = sNA → d.articles = [] →
      (containsSub ("nomination").toList d.title = true ∨
       containsSub ("mettant fin").toList d.title = true) →
      acceptSegment t = some d) ∧
    (∀ full_text, process_full_gazette full_text =
      (docTextsOf (findContentStart (preCleanGazette full_text))).filterMap acceptSegment) := by
  refine ⟨?_, ?_, ?_, ?_⟩
  · intro t hd ind e hh htitle harts
    simp [parse_document, parseDocumentEx, hh, htitle, harts]
  · intro t d hp hnum harts hnom hmet
    simp at hnom hmet
    simp [acceptSegment, keepDoc, hp, hnum, harts, hnom, hmet]
  · intro t d hp hnum harts hallow
    rcases hallow with h | h <;> simp at h <;>
      simp [acceptSegment, keepDoc, hp, hnum, harts, h]
  · intro full_text
    rw [process_full_gazette]
    cases hs : (docStarts (findContentStart (preCleanGazette full_text))).isEmpty
    · simp only [hs, Bool.false_eq_true, if_false]
      rw [process_loop_filterMap]
      simp [docTextsOf]
    · simp only [hs, if_true]
      have : docStarts (findContentStart (preCleanGazette full_text)) = [] :=
        List.isEmpty_iff.mp hs
      simp [docTextsOf, this, segRanges]

/-- C5 witness: the allowlist-acceptance rule applied at the scenario B
segment. -/
theorem validator_rules_witness : acceptSegment inB = some docB :=
  validator_rules.2.2.1 inB docB (by decide) rfl rfl (Or.inr (by decide))

/-- Soundness of the article scan: every reported hit lies at or after the
scan origin, and the article pattern really matches at the reported
position. -/
theorem artFindsAux_mem (rest : List Char) (pos skip q : Nat) (cap : ArtCap)
    (h : (q, cap) ∈ artFindsAux rest pos skip) :
    pos ≤ q ∧ articleAt (rest.drop (q - pos)) = some cap := by
  induction rest generalizing pos skip with
  | nil => simp [artFindsAux] at h
  | cons c cs ih =>
    cases skip with
    | succ s =>
      have h2 : (q, cap) ∈ artFindsAux cs (pos + 1) s := by
        simpa [artFindsAux] using h
      obtain ⟨hle, hat⟩ := ih (pos + 1) s h2
      refine ⟨by omega, ?_⟩
      have hq : q - pos = (q - (pos + 1)) + 1 := by omega
      rw [hq]
      simpa using hat
    | zero =>
      cases ha : articleAt (c :: cs) with
      | some cap2 =>
        simp only [artFindsAux, ha, List.mem_cons] at h
        rcases h with heq | hmem
        · have hq : q = pos := congrArg Prod.fst heq
          have hcap : cap = cap2 := congrArg Prod.snd heq
          subst hq
          subst hcap
          simpa using ha
        · obtain ⟨hle, hat⟩ := ih (pos + 1) (cap2.mlen - 1) hmem
          refine ⟨by omega, ?_⟩
          have hq : q - pos = (q - (pos + 1)) + 1 := by omega
          rw [hq]
          simpa using hat
      | none =>
        simp only [artFindsAux, ha] at h
        obtain ⟨hle, hat⟩ := ih (pos + 1) 0 h
        refine ⟨by omega, ?_⟩
        have hq : q - pos = (q - (pos + 1)) + 1 := by omega
        rw [hq]
        simpa using hat

/-- C3: when the full-header pattern matched (ending at offset
`p + c.mlen` in the segment), the articles of the parsed document are
exactly those extracted from the sub-segment strictly after that offset,
and every extracted article corresponds to an `ARTICLE_PATTERN` match of
the segment at an absolute position `p + c.mlen + q ≥ p + c.mlen` — never
before the header end. -/
theorem articles_strictly_after_header_end (t : List Char) (p : Nat) (c : FullCaps)
    (d : ParsedDoc) (fl : Bool)
    (hf : fullSearch t = some (p, c)) (hp : parseDocumentEx t = some (d, fl)) :
    d.articles = parse_articles (t.drop (p + c.mlen)) ∧
    (∀ q cap, (q, cap) ∈ artFinds (t.drop (p + c.mlen)) →
      p + c.mlen ≤ p + c.mlen + q ∧
      articleAt (t.drop (p + c.mlen + q)) = some cap) := by
  constructor
  · simp only [parseDocumentEx, hdrSearch, hf] at hp
    injection opt_ite_eq_some hp with h3 h4
    rw [← h3]
    simp
  · intro q cap hm
    obtain ⟨_, hat⟩ := artFindsAux_mem _ 0 0 q cap hm
    refine ⟨Nat.le_add_right _ _, ?_⟩
    rw [← List.drop_drop q (p + c.mlen) t]
    simpa using hat

/-- C3 witness: the theorem applied at the concrete segment `tC`, whose
header match ends at offset 50 and whose single article is found after it. -/
theorem articles_strictly_after_header_end_witness :
    dC.articles = parse_articles (tC.drop (0 + capC.mlen)) :=
  (articles_strictly_after_header_end tC 0 capC dC false (by decide) (by decide)).1

/-! ### Boundary segmenter lemmas -/

/-- Every boundary reported by the start scan lies in `[pos, pos + |rest|)`. -/
theorem docStartsAux_mem_bounds (rest : List Char) :
    ∀ ls pos skip, ∀ q ∈ docStartsAux rest ls pos skip, pos ≤ q ∧ q < pos + rest.length := by
  induction rest with
  | nil => intro ls pos skip q hq; simp [docStartsAux] at hq
  | cons c cs ih =>
    intro ls pos skip q hq
    cases skip with
    | succ s =>
      obtain ⟨h1, h2⟩ := ih (c == '\n') (pos + 1) s q (by simpa [docStartsAux] using hq)
      constructor
      · omega
      · simp only [List.length_cons]; omega
    | zero =>
      cases hm : (if ls then docStartAt (c :: cs) else none) with
      | some L =>
        simp only [docStartsAux, hm, List.mem_cons] at hq
        rcases hq with rfl | hmem
        · simp
        · obtain ⟨h1, h2⟩ := ih (c == '\n') (pos + 1) (L - 1) q hmem
          constructor
          · omega
          · simp only [List.length_cons]; omega
      | none =>
        simp only [docStartsAux, hm] at hq
        obtain ⟨h1, h2⟩ := ih (c == '\n') (pos + 1) 0 q hq
        constructor
        · omega
        · simp only [List.length_cons]; omega

/-- The boundary positions are produced in strictly increasing order. -/
theorem docStartsAux_chain (rest : List Char) :
    ∀ ls pos skip, List.Chain' (· < ·) (docStartsAux rest ls pos skip) := by
  induction rest with
  | nil => intro ls pos skip; simp [docStartsAux]
  | cons c cs ih =>
    intro ls pos skip
    cases skip with
    | succ s => simpa [docStartsAux] using ih (c == '\n') (pos + 1) s
    | zero =>
      cases hm : (if ls then docStartAt (c :: cs) else none) with
      | none => simpa [docStartsAux, hm] using ih (c == '\n') (pos + 1) 0
      | some L =>
        simp only [docStartsAux, hm]
        refine List.chain'_cons'.mpr ⟨?_, ih (c == '\n') (pos + 1) (L - 1)⟩
        intro y hy
        have hmem := List.mem_of_mem_head? hy
        have := (docStartsAux_mem_bounds cs (c == '\n') (pos + 1) (L - 1) y hmem).1
        omega

/-- Consecutive segment ranges are adjacent: each segment ends where the
next one starts. -/
theorem segRanges_chain (starts : List Nat) (n : Nat) :
    List.Chain' (fun pq1 pq2 => pq1.2 = pq2.1) (segRanges starts n) := by
  induction starts with
  | nil => simp [segRanges]
  | cons a rest ih =>
    cases rest with
    | nil => simp [segRanges]
    | cons b r =>
      refine List.chain'_cons'.mpr ⟨?_, ih⟩
      intro y hy
      cases r with
      | nil =>
        simp [segRanges] at hy
        rw [← hy]
      | cons e r2 =>
        simp [segRanges] at hy
        rw [← hy]

/-- Each segment range is nonempty when the boundaries are strictly
increasing and below the content length. -/
theorem segRanges_lt (starts : List Nat) (n : Nat)
    (hc : List.Chain' (· < ·) starts) (hb : ∀ q ∈ starts, q < n) :
    ∀ pq ∈ segRanges starts n, pq.1 < pq.2 := by
  induction starts with
  | nil => simp [segRanges]
  | cons a rest ih =>
    cases rest with
    | nil =>
      intro pq hpq
      simp [segRanges] at hpq
      rw [hpq]
      exact hb a (by simp)
    | cons b r =>
      intro pq hpq
      simp only [segRanges, List.mem_cons] at hpq
      rcases hpq with rfl | hmem
      · exact (List.chain'_cons.mp hc).1
      · exact ih (List.chain'_cons.mp hc).2
          (fun q hq => hb q (List.mem_cons_of_mem a hq)) pq hmem

/-- The last segment range ends at the content length. -/
theorem segRanges_last (starts : List Nat) (n : Nat) :
    ∀ pq, (segRanges starts n).getLast? = some pq → pq.2 = n := by
  induction starts with
  | nil => intro pq h; simp [segRanges] at h
  | cons a rest ih =>
    cases rest with
    | nil =>
      intro pq h
      simp [segRanges] at h
      rw [← h]
    | cons b r =>
      intro pq h
      apply ih
      rw [← h]
      cases r with
      | nil => simp [segRanges]
      | cons e r2 => simp [segRanges]

/-- Coverage: the concatenation of the segment slices is exactly the content
from the first boundary onward. -/
theorem segRanges_cover_aux (rest : List Nat) :
    ∀ (a : Nat) (content : List Char),
      List.Chain' (· < ·) (a :: rest) → (∀ q ∈ a :: rest, q < content.length) →
      ((segRanges (a :: rest) content.length).map
        (fun pq => slice content pq.1 pq.2)).foldr (· ++ ·) [] = content.drop a := by
  induction rest with
  | nil =>
    intro a content _ hb
    simp only [segRanges, List.map_cons, List.map_nil, List.foldr_cons, List.foldr_nil,
      List.append_nil, slice]
    apply List.take_of_length_le
    simp
  | cons b r ih =>
    intro a content hc hb
    have hab : a < b := (List.chain'_cons.mp hc).1
    simp only [segRanges, List.map_cons, List.foldr_cons]
    rw [ih b content (List.chain'_cons.mp hc).2
      (fun q hq => hb q (List.mem_cons_of_mem a hq))]
    have hb2 : content.drop b = (content.drop a).drop (b - a) := by
      rw [List.drop_drop]
      congr 1
      omega
    rw [slice, hb2, List.take_append_drop]

/-- C2 (amended): the segment ranges built from the boundary scan are
adjacent (each segment ends where the next starts, hence non-overlapping and
strictly left-to-right), each is nonempty, the last one ends at the content
length, and their slices concatenate to the content FROM THE FIRST BOUNDARY
onward.  Content before the first boundary is not covered (see the
counterexample). -/
theorem segmenter_partition (content : List Char) :
    List.Chain' (fun pq1 pq2 => pq1.2 = pq2.1)
      (segRanges (docStarts content) content.length) ∧
    (∀ pq ∈ segRanges (docStarts content) content.length, pq.1 < pq.2) ∧
    (∀ pq, (segRanges (docStarts content) content.length).getLast? = some pq →
      pq.2 = content.length) ∧
    (∀ a rest, docStarts content = a :: rest →
      ((segRanges (docStarts content) content.length).map
        (fun pq => slice content pq.1 pq.2)).foldr (· ++ ·) [] = content.drop a) := by
  have hchain := docStartsAux_chain content true 0 0
  have hb : ∀ q ∈ docStarts content, q < content.length := by
    intro q hq
    have := (docStartsAux_mem_bounds content true 0 0 q hq).2
    simpa using this
  refine ⟨segRanges_chain _ _, segRanges_lt _ _ hchain hb, segRanges_last _ _, ?_⟩
  intro a rest h
  rw [h]
  exact segRanges_cover_aux rest a content (h ▸ hchain) (h ▸ hb)

/-- C2 counterexample: on the content `"x\nLoi q"` the single boundary is at
offset 2, the single segment is `[2, 7)`, and offset 0 of the content is
covered by no segment: the claim that the segments cover the content with no
part before the first boundary left uncovered is false. -/
theorem segmenter_start_uncovered :
    docStarts tX = [2] ∧
    segRanges (docStarts tX) tX.length = [(2, 7)] ∧
    covered (segRanges (docStarts tX) tX.length) 0 = false :=
  ⟨by decide, by decide, by decide⟩

/-- C2 witness: on `tX` the last (single) segment ends at the content
length. -/
theorem segmenter_partition_witness : (2, 7).2 = tX.length :=
  (segmenter_partition tX).2.2.1 (2, 7) (by decide)

/-! ### Idempotence of the field cleaner

Normal form of a cleaned field: every whitespace character is a plain
space, no two whitespace characters are adjacent, the head is not in the
`lstrip` set, and it has no trailing whitespace (it is a fixed point of
`rtrimWs`).  The cleaner maps every string into this normal form and is
the identity on it. -/

/-- Every whitespace character of `l` is a plain space. -/
def wsOnlySpace (l : List Char) : Bool := l.all (fun c => !isPyWs c || c == ' ')

/-- No two adjacent characters of `l` are both whitespace. -/
def noAdjWs : List Char → Bool
  | c :: d :: rest => (!(isPyWs c && isPyWs d)) && noAdjWs (d :: rest)
  | _ => true

theorem noAdjWs_tail (c : Char) (l : List Char) (h : noAdjWs (c :: l) = true) :
    noAdjWs l = true := by
  cases l with
  | nil => rfl
  | cons d rest =>
    simp only [noAdjWs, Bool.and_eq_true] at h
    exact h.2

theorem wsOnly_collapseWs (l : List Char) : wsOnlySpace (collapseWs l) = true := by
  induction l using collapseWs.induct with
  | case1 => rfl
  | case2 c h => simp [collapseWs, wsOnlySpace, h]
  | case3 c h =>
    simp only [Bool.not_eq_true] at h
    simp [collapseWs, wsOnlySpace, h]
  | case4 c d rest h ih =>
    simp only [collapseWs, h, if_true]
    exact ih
  | case5 c d rest h ih =>
    simp only [collapseWs, h, if_false]
    cases hc : isPyWs c <;>
      simp_all [wsOnlySpace, List.all_cons]

/-- The head of a collapsed nonempty list: a space when the original head
was whitespace, the original head otherwise. -/
theorem collapseWs_cons_head (l : List Char) :
    ∀ c, ∃ tl, collapseWs (c :: l) = (if isPyWs c then ' ' else c) :: tl := by
  induction l with
  | nil =>
    intro c
    cases h : isPyWs c <;> simp [collapseWs, h]
  | cons d rest ih =>
    intro c
    by_cases h : (isPyWs c && isPyWs d) = true
    · obtain ⟨tl, htl⟩ := ih d
      refine ⟨tl, ?_⟩
      simp only [collapseWs, h, if_true, htl]
      simp only [Bool.and_eq_true] at h
      simp [h.1, h.2]
    · exact ⟨collapseWs (d :: rest), by simp [collapseWs, h]⟩

theorem noAdj_collapseWs (l : List Char) : noAdjWs (collapseWs l) = true := by
  induction l using collapseWs.induct with
  | case1 => rfl
  | case2 c h => simp [collapseWs, h, noAdjWs]
  | case3 c h =>
    simp only [Bool.not_eq_true] at h
    simp [collapseWs, h, noAdjWs]
  | case4 c d rest h ih =>
    simp only [collapseWs, h, if_true]
    exact ih
  | case5 c d rest h ih =>
    simp only [collapseWs, h, if_false]
    obtain ⟨tl, htl⟩ := collapseWs_cons_head rest d
    rw [htl]
    rw [htl] at ih
    simp only [noAdjWs, Bool.and_eq_true]
    refine ⟨?_, ih⟩
    cases hc : isPyWs c
    · simp [hc]
    · have hd : isPyWs d = false := by
        cases hd : isPyWs d
        · rfl
        · exact absurd (by simp [hc, hd]) h
      simp [hc, hd]

theorem collapseWs_eq_self (l : List Char) (h1 : wsOnlySpace l = true)
    (h2 : noAdjWs l = true) : collapseWs l = l := by
  induction l using collapseWs.induct with
  | case1 => rfl
  | case2 c hc =>
    have hsp : c = ' ' := by
      simp only [wsOnlySpace, List.all_cons, Bool.and_eq_true] at h1
      have := h1.1
      rw [hc] at this
      simpa using this
    simp [collapseWs, hc, hsp]
  | case3 c hc =>
    simp only [Bool.not_eq_true] at hc
    simp [collapseWs, hc]
  | case4 c d rest h ih =>
    have : noAdjWs (c :: d :: rest) = false := by
      simp [noAdjWs, h]
    rw [this] at h2
    cases h2
  | case5 c d rest h ih =>
    simp only [collapseWs, h, if_false]
    have h1t : wsOnlySpace (d :: rest) = true := by
      simp only [wsOnlySpace, List.all_cons, Bool.and_eq_true] at h1 ⊢
      exact h1.2
    have hrec := ih h1t (noAdjWs_tail c _ h2)
    rw [hrec]
    cases hc : isPyWs c
    · simp [hc]
    · have hsp : c = ' ' := by
        simp only [wsOnlySpace, List.all_cons, Bool.and_eq_true] at h1
        have := h1.1
        rw [hc] at this
        simpa using this
      simp [hc, hsp]

theorem wsOnly_dropWhile (p : Char → Bool) (l : List Char)
    (h : wsOnlySpace l = true) : wsOnlySpace (l.dropWhile p) = true := by
  induction l with
  | nil => simpa using h
  | cons c cs ih =>
    have ht : wsOnlySpace cs = true := by
      simp only [wsOnlySpace, List.all_cons, Bool.and_eq_true] at h
      exact h.2
    cases hp : p c
    · rw [List.dropWhile_cons_of_neg (by simp [hp])]
      exact h
    · rw [List.dropWhile_cons_of_pos (by simp [hp])]
      exact ih ht

theorem noAdj_dropWhile (p : Char → Bool) (l : List Char)
    (h : noAdjWs l = true) : noAdjWs (l.dropWhile p) = true := by
  induction l with
  | nil => simpa using h
  | cons c cs ih =>
    cases hp : p c
    · simpa [List.dropWhile, hp] using h
    · simpa [List.dropWhile, hp] using ih (noAdjWs_tail c cs h)

/-- The head of `dropWhile` fails the predicate. -/
theorem dropWhile_head_false (p : Char → Bool) (l : List Char) :
    ∀ c tl, l.dropWhile p = c :: tl → p c = false := by
  induction l with
  | nil => intro c tl h; simp at h
  | cons a as ih =>
    intro c tl h
    cases hp : p a
    · rw [List.dropWhile_cons_of_neg (by simp [hp])] at h
      cases h
      exact hp
    · rw [List.dropWhile_cons_of_pos (by simp [hp])] at h
      exact ih c tl h

/-- `rtrimWs` returns a prefix of its argument. -/
theorem rtrimWs_front (l : List Char) : ∃ t, rtrimWs l ++ t = l := by
  induction l with
  | nil => exact ⟨[], rfl⟩
  | cons c cs ih =>
    obtain ⟨t, ht⟩ := ih
    cases hr : rtrimWs cs with
    | nil =>
      cases hw : isPyWs c
      · exact ⟨cs, by simp [rtrimWs, hr, hw]⟩
      · exact ⟨c :: cs, by simp [rtrimWs, hr, hw]⟩
    | cons e es =>
      refine ⟨t, ?_⟩
      rw [hr] at ht
      simp [rtrimWs, hr, ht]

theorem wsOnly_append_left (l t : List Char)
    (h : wsOnlySpace (l ++ t) = true) : wsOnlySpace l = true := by
  simp only [wsOnlySpace, List.all_append, Bool.and_eq_true] at h
  exact h.1

theorem noAdj_append_left (l t : List Char)
    (h : noAdjWs (l ++ t) = true) : noAdjWs l = true := by
  induction l with
  | nil => rfl
  | cons c cs ih =>
    cases cs with
    | nil => rfl
    | cons d rest =>
      simp only [List.cons_append, noAdjWs, Bool.and_eq_true] at h
      simp only [noAdjWs, Bool.and_eq_true]
      exact ⟨h.1, ih (by simpa [noAdjWs] using h.2)⟩

/-- The shape of `rtrimWs`: empty, or ending in a non-whitespace character. -/
theorem rtrimWs_last_shape (l : List Char) :
    rtrimWs l = [] ∨ ∃ l0 e, rtrimWs l = l0 ++ [e] ∧ isPyWs e = false := by
  induction l with
  | nil => exact Or.inl rfl
  | cons c cs ih =>
    cases hr : rtrimWs cs with
    | nil =>
      cases hw : isPyWs c
      · exact Or.inr ⟨[], c, by simp [rtrimWs, hr, hw], hw⟩
      · exact Or.inl (by simp [rtrimWs, hr, hw])
    | cons e es =>
      rcases ih with h | ⟨l0, f, hl0, hf⟩
      · rw [h] at hr; cases hr
      · refine Or.inr ⟨c :: l0, f, ?_, hf⟩
        rw [hr] at hl0
        simp [rtrimWs, hr, ← hl0]

/-- Unfolding of `rtrimWs` on a cons cell whose tail trims to a nonempty
list. -/
theorem rtrimWs_cons_of_ne (c : Char) (cs : List Char) (e : Char) (es : List Char)
    (h : rtrimWs cs = e :: es) : rtrimWs (c :: cs) = c :: e :: es := by
  simp [rtrimWs, h]

theorem rtrimWs_eq_self_of (l0 : List Char) (e : Char) (he : isPyWs e = false) :
    rtrimWs (l0 ++ [e]) = l0 ++ [e] := by
  induction l0 with
  | nil => simp [rtrimWs, he]
  | cons d l0 ih =>
    cases l0 with
    | nil =>
      simp only [List.nil_append] at ih
      simp [rtrimWs, he]
    | cons g gs =>
      simp only [List.cons_append] at ih ⊢
      rw [rtrimWs_cons_of_ne d _ _ _ ih]

theorem rtrimWs_idem (l : List Char) : rtrimWs (rtrimWs l) = rtrimWs l := by
  rcases rtrimWs_last_shape l with h | ⟨l0, e, h, he⟩
  · rw [h]; rfl
  · rw [h]; exact rtrimWs_eq_self_of l0 e he

/-- If the head of a nonempty list survives `rtrimWs`, it is unchanged. -/
theorem rtrimWs_cons_shape (c : Char) (l : List Char) :
    rtrimWs (c :: l) = [] ∨ ∃ tl, rtrimWs (c :: l) = c :: tl := by
  cases hr : rtrimWs l with
  | nil =>
    cases hw : isPyWs c
    · exact Or.inr ⟨[], by simp [rtrimWs, hr, hw]⟩
    · exact Or.inl (by simp [rtrimWs, hr, hw])
  | cons e es => exact Or.inr ⟨e :: es, by simp [rtrimWs, hr]⟩

/-- `str.replace('\n', ' ')` is the identity when every whitespace character
is a plain space. -/
theorem mapNl_eq_self (l : List Char) (h : wsOnlySpace l = true) : mapNl l = l := by
  induction l with
  | nil => rfl
  | cons c cs ih =>
    simp only [wsOnlySpace, List.all_cons, Bool.and_eq_true] at h
    have hc : (c == '\n') = false := by
      cases hnl : (c == '\n')
      · rfl
      · have hceq : c = '\n' := beq_iff_eq.mp hnl
        subst hceq
        exact absurd h.1 (by decide)
    have htl := ih h.2
    have hout : mapNl (c :: cs) = (if (c == '\n') = true then ' ' else c) :: mapNl cs := rfl
    rw [hout, hc, htl]
    simp

/-- Every cleaned field is in normal form: all whitespace is single spaces,
no two adjacent, the head is outside the `lstrip` set, and there is no
trailing whitespace. -/
theorem cleanField_normal (s : List Char) :
    wsOnlySpace (cleanField s) = true ∧ noAdjWs (cleanField s) = true ∧
    (∀ c tl, cleanField s = c :: tl → stripSetC c = false) ∧
    rtrimWs (cleanField s) = cleanField s := by
  have hv1 : wsOnlySpace ((collapseWs (pyStrip (mapNl s))).dropWhile stripSetC) = true :=
    wsOnly_dropWhile _ _ (wsOnly_collapseWs _)
  have hv2 : noAdjWs ((collapseWs (pyStrip (mapNl s))).dropWhile stripSetC) = true :=
    noAdj_dropWhile _ _ (noAdj_collapseWs _)
  have hvhead := dropWhile_head_false stripSetC (collapseWs (pyStrip (mapNl s)))
  have hdws : ((collapseWs (pyStrip (mapNl s))).dropWhile stripSetC).dropWhile isPyWs =
      (collapseWs (pyStrip (mapNl s))).dropWhile stripSetC := by
    cases hv0 : (collapseWs (pyStrip (mapNl s))).dropWhile stripSetC with
    | nil => rfl
    | cons c tl =>
      have hset := hvhead c tl hv0
      have hws : isPyWs c = false := by
        cases hws : isPyWs c
        · rfl
        · have hall := hv1
          rw [hv0] at hall
          simp only [wsOnlySpace, List.all_cons, Bool.and_eq_true] at hall
          have hce : (c == ' ') = true := by simpa [hws] using hall.1
          have hceq : c = ' ' := beq_iff_eq.mp hce
          rw [hceq] at hset
          simp [stripSetC] at hset
      rw [List.dropWhile_cons_of_neg (by simp [hws])]
  have hu : cleanField s =
      rtrimWs ((collapseWs (pyStrip (mapNl s))).dropWhile stripSetC) := by
    show pyStrip ((collapseWs (pyStrip (mapNl s))).dropWhile stripSetC) = _
    rw [pyStrip, hdws]
  refine ⟨?_, ?_, ?_, ?_⟩
  · rw [hu]
    obtain ⟨t, ht⟩ := rtrimWs_front ((collapseWs (pyStrip (mapNl s))).dropWhile stripSetC)
    exact wsOnly_append_left _ t (by rw [ht]; exact hv1)
  · rw [hu]
    obtain ⟨t, ht⟩ := rtrimWs_front ((collapseWs (pyStrip (mapNl s))).dropWhile stripSetC)
    exact noAdj_append_left _ t (by rw [ht]; exact hv2)
  · intro c tl hctl
    rw [hu] at hctl
    cases hv0 : (collapseWs (pyStrip (mapNl s))).dropWhile stripSetC with
    | nil =>
      rw [hv0] at hctl
      cases hctl
    | cons e es =>
      rw [hv0] at hctl
      rcases rtrimWs_cons_shape e es with hsh | ⟨tl2, hsh⟩
      · rw [hsh] at hctl; cases hctl
      · rw [hsh] at hctl
        injection hctl with h1 h2
        rw [← h1]
        exact hvhead e es hv0
  · rw [hu]
    exact rtrimWs_idem _

/-- The cleaner is the identity on its normal form. -/
theorem cleanField_fixed (u : List Char)
    (h1 : wsOnlySpace u = true) (h2 : noAdjWs u = true)
    (h3 : ∀ c tl, u = c :: tl → stripSetC c = false)
    (h4 : rtrimWs u = u) : cleanField u = u := by
  have hm : mapNl u = u := mapNl_eq_self u h1
  have hheadws : u.dropWhile isPyWs = u := by
    cases hu0 : u with
    | nil => rfl
    | cons c tl =>
      have hset := h3 c tl hu0
      have hws : isPyWs c = false := by
        cases hws : isPyWs c
        · rfl
        · have hall := h1
          rw [hu0] at hall
          simp only [wsOnlySpace, List.all_cons, Bool.and_eq_true] at hall
          have hce : (c == ' ') = true := by simpa [hws] using hall.1
          have hceq : c = ' ' := beq_iff_eq.mp hce
          rw [hceq] at hset
          simp [stripSetC] at hset
      rw [List.dropWhile_cons_of_neg (by simp [hws])]
  have hstrip : pyStrip u = u := by
    rw [pyStrip, hheadws, h4]
  have hcol : collapseWs u = u := collapseWs_eq_self u h1 h2
  have hsetdrop : u.dropWhile stripSetC = u := by
    cases hu0 : u with
    | nil => rfl
    | cons c tl => rw [List.dropWhile_cons_of_neg (by simp [h3 c tl hu0])]
  show pyStrip ((collapseWs (pyStrip (mapNl u))).dropWhile stripSetC) = u
  rw [hm, hstrip, hcol, hsetdrop, hstrip]

/-- C7: the field cleaner is idempotent — cleaning twice equals cleaning
once, so cleaning an already-clean string is a no-op. -/
theorem cleanField_idempotent (s : List Char) :
    cleanField (cleanField s) = cleanField s := by
  obtain ⟨h1, h2, h3, h4⟩ := cleanField_normal s
  exact cleanField_fixed _ h1 h2 h3 h4

end DzScrap
